import Mathlib

/-!
Verification of the waspos backend core against its design specification.

The Python services are shallowly embedded as pure Lean functions:

* `PollingService` (`app/services/courage/polling.py`) becomes explicit
  state passing over a `PollState` (one conviction poll and its votes);
  SQLAlchemy exceptions become `Except String` and an exception rolls the
  transaction back, so a failed operation leaves the state unchanged.
* `DivergenceAnalyzer` (`app/services/courage/divergence.py`) becomes a
  pure function from the fetched poll and vote rows to a report value.
* `VectorStore` (`app/services/memory/vector_store.py`) and the
  `GhostLossAnalyzer` (`app/services/ghostwriter/ghost_loss_analyzer.py`)
  become list pipelines over an explicit table of chunk and document rows;
  the pgvector distance operator applied to the embedded query is passed
  in as an opaque function, since no property proved here depends on the
  numeric value of a cosine distance.

Machine floats from the source are modelled as rationals; timestamps are
naturals; UUIDs are naturals.
-/

namespace Waspos

/-! ## String helpers

Python lowercases with `str.lower` and checks containment with
`LIKE '%pat%'` / `in`; we model both over the character list of the
string (ASCII case folding, which covers every literal the code uses). -/

/-- Character-wise lower-casing of a string, modelling Python `str.lower`
and SQL `LOWER` on the ASCII text the code manipulates. -/
def lowerStr (s : String) : String :=
  String.mk (s.data.map Char.toLower)

/-- Whether `pat` occurs at the head of `l`. -/
def leadsWith : List Char → List Char → Bool
  | [], _ => true
  | _ :: _, [] => false
  | a :: pat, b :: l => a == b && leadsWith pat l

/-- Whether `pat` occurs somewhere inside `l` (SQL `LIKE '%pat%'`). -/
def occursIn (pat : List Char) : List Char → Bool
  | [] => pat.isEmpty
  | b :: l => leadsWith pat (b :: l) || occursIn pat l

/-- Whether string `pat` occurs inside string `s`. -/
def strOccursIn (pat s : String) : Bool :=
  occursIn pat.data s.data

/-! ## Numeric helpers -/

/-- Round to the nearest integer, halves to the even integer: the rounding
rule of Python's builtin `round`. -/
def roundHalfEven (q : ℚ) : ℤ :=
  let n := ⌊q⌋
  let r := q - n
  if r < 1 / 2 then n
  else if r > 1 / 2 then n + 1
  else if n % 2 = 0 then n else n + 1

/-- Python `round(x, 2)`: round to two decimal places, halves to even. -/
def round2 (q : ℚ) : ℚ :=
  (roundHalfEven (q * 100) : ℚ) / 100

/-- Python `max` over a list of naturals (callers guard non-emptiness). -/
def maxNat (l : List ℕ) : ℕ :=
  l.foldr max 0

/-- Python `min` over a list of naturals (callers guard non-emptiness). -/
def minNat : List ℕ → ℕ
  | [] => 0
  | a :: l => l.foldr min a

/-! ## Descending sort by a rational key

Python's `sorted(..., key=..., reverse=True)` and SQL `ORDER BY distance`
sort the candidate lists; every property proved below is insensitive to
the order among candidates with equal keys, so a simple insertion sort
stands in for the stable mergesort of the originals. -/

/-- Insert `a` into `l`, keeping keys (by `f`) in descending order. -/
def insertDescBy {α : Type} (f : α → ℚ) (a : α) : List α → List α
  | [] => [a]
  | b :: l => if f b < f a then a :: b :: l else b :: insertDescBy f a l

/-- Sort `l` into descending order of the key `f`. -/
def sortDescBy {α : Type} (f : α → ℚ) : List α → List α
  | [] => []
  | a :: l => insertDescBy f a (sortDescBy f l)

/-! ## Conviction polling (`app/models/polling.py`, `app/schemas/polling.py`,
`app/services/courage/polling.py`)

One `PollState` holds the row of a single conviction poll together with the
`poll_votes` table restricted to rows the service could touch.  Service
methods take the service's `firm_id` and the current time as arguments;
`datetime.utcnow()` becomes the `now` parameter, freshly generated UUIDs
and the joined `users.full_name` column become parameters as well. -/

/-- Payload of `PollVoteCreate`: the vote-submission schema. -/
structure PollVoteCreateData where
  conviction_score : ℕ
  red_flags : Option (List String)
  red_flag_notes : Option String
  green_flags : Option (List String)
  green_flag_notes : Option String
  private_notes : Option String
deriving DecidableEq

/-- A `poll_votes` row; `user_full_name` carries the joined `users.full_name`
(`none` when the user row is absent). -/
structure PollVote where
  id : ℕ
  poll_id : ℕ
  user_id : ℕ
  conviction_score : ℕ
  red_flags : Option (List String)
  red_flag_notes : Option String
  green_flags : Option (List String)
  green_flag_notes : Option String
  private_notes : Option String
  submitted_at : ℕ
  updated_at : ℕ
  user_full_name : Option String
deriving DecidableEq

/-- A `conviction_polls` row (fields the polling claims touch). -/
@[ext]
structure ConvictionPoll where
  id : ℕ
  deal_id : ℕ
  firm_id : ℕ
  is_active : Bool
  is_revealed : Bool
  reveal_threshold : ℕ
  closes_at : Option ℕ
  average_score : Option ℕ
  divergence_score : Option ℕ
deriving DecidableEq

/-- Database state visible to `PollingService`: one poll row plus the vote
table. -/
@[ext]
structure PollState where
  poll : ConvictionPoll
  votes : List PollVote
deriving DecidableEq

/-- The SQL key predicate `poll_id == :pid AND user_id == :uid` used by the
existing-vote lookup in `submit_vote` and by `get_user_vote`. -/
def voteKeyMatches (pid uid : ℕ) (v : PollVote) : Bool :=
  v.poll_id == pid && v.user_id == uid

/-- Python `poll.closes_at and datetime.utcnow() > poll.closes_at`. -/
def pastClose (closes_at : Option ℕ) (now : ℕ) : Bool :=
  match closes_at with
  | some t => now > t
  | none => false

/-- The field updates applied to an existing vote row in `submit_vote`
(`updated_at` is refreshed; `id`, `submitted_at` and ownership are kept). -/
def updateVote (d : PollVoteCreateData) (now : ℕ) (v : PollVote) : PollVote :=
  { v with
    conviction_score := d.conviction_score
    red_flags := d.red_flags
    red_flag_notes := d.red_flag_notes
    green_flags := d.green_flags
    green_flag_notes := d.green_flag_notes
    private_notes := d.private_notes
    updated_at := now }

/-- The fresh `PollVote` row created by `submit_vote` when no vote by this
user exists yet; column defaults fill `submitted_at`/`updated_at` with the
current time and a fresh UUID. -/
def mkNewVote (pid uid vid now : ℕ) (d : PollVoteCreateData)
    (uname : Option String) : PollVote :=
  { id := vid
    poll_id := pid
    user_id := uid
    conviction_score := d.conviction_score
    red_flags := d.red_flags
    red_flag_notes := d.red_flag_notes
    green_flags := d.green_flags
    green_flag_notes := d.green_flag_notes
    private_notes := d.private_notes
    submitted_at := now
    updated_at := now
    user_full_name := uname }

/-- `PollingService.submit_vote`.  The `scalar_one_or_none` fetch of the
existing vote errors when more than one row matches the key; otherwise the
single row is updated in place or a fresh row is inserted.
`_check_reveal_threshold` is a no-op in the source (the auto-reveal branch
is `pass`) and is omitted. -/
def submit_vote (firm_id now : ℕ) (s : PollState) (poll_id user_id : ℕ)
    (d : PollVoteCreateData) (vid : ℕ) (uname : Option String) :
    Except String PollState :=
  if poll_id = s.poll.id ∧ s.poll.firm_id = firm_id then
    if s.poll.is_active then
      if pastClose s.poll.closes_at now then .error "Poll has closed"
      else
        match s.votes.filter (voteKeyMatches poll_id user_id) with
        | [] =>
            .ok { s with votes := s.votes ++ [mkNewVote poll_id user_id vid now d uname] }
        | [_] =>
            .ok { s with votes := s.votes.map (fun v =>
                    if voteKeyMatches poll_id user_id v then updateVote d now v else v) }
        | _ => .error "Multiple rows found for vote"
    else .error "Poll is no longer active"
  else .error "Poll not found or access denied"

/-- The `SELECT ... WHERE poll_votes.poll_id = :poll_id` fetch. -/
def votesForPoll (s : PollState) (pid : ℕ) : List PollVote :=
  s.votes.filter (fun v => v.poll_id == pid)

/-- `PollingService.reveal_poll`: sets `is_revealed`/`is_active`
unconditionally, then recomputes `average_score` (Python `//`, i.e. floor
division of non-negative integers) and `divergence_score` (`max - min`)
from the current vote set whenever that set is non-empty. -/
def reveal_poll (firm_id : ℕ) (s : PollState) (poll_id : ℕ) :
    Except String PollState :=
  if poll_id = s.poll.id ∧ s.poll.firm_id = firm_id then
    let scores := (votesForPoll s poll_id).map (·.conviction_score)
    let p1 := { s.poll with is_revealed := true, is_active := false }
    let p2 :=
      if scores.isEmpty then p1
      else
        { p1 with
          average_score := some (scores.sum / scores.length)
          divergence_score := some (maxNat scores - minNat scores) }
    .ok { s with poll := p2 }
  else .error "Poll not found or access denied"

/-- The wire shape `PollVoteResponse`: identity and note fields are
optional and default to `none`. -/
structure PollVoteResponse where
  id : ℕ
  poll_id : ℕ
  conviction_score : ℕ
  red_flags : Option (List String)
  green_flags : Option (List String)
  submitted_at : ℕ
  user_id : Option ℕ
  user_name : Option String
  red_flag_notes : Option String
  green_flag_notes : Option String
deriving DecidableEq

/-- The response built for one vote inside `get_poll_votes`: base fields
always; identity and free-text notes only when the poll is revealed or the
requester is the vote's author. -/
def mkVoteResponse (poll : ConvictionPoll) (requester_id : ℕ) (v : PollVote) :
    PollVoteResponse :=
  let base : PollVoteResponse :=
    { id := v.id
      poll_id := v.poll_id
      conviction_score := v.conviction_score
      red_flags := v.red_flags
      green_flags := v.green_flags
      submitted_at := v.submitted_at
      user_id := none
      user_name := none
      red_flag_notes := none
      green_flag_notes := none }
  if poll.is_revealed ∨ v.user_id = requester_id then
    { base with
      user_id := some v.user_id
      user_name := v.user_full_name
      red_flag_notes := v.red_flag_notes
      green_flag_notes := v.green_flag_notes }
  else base

/-- `PollingService.get_poll_votes` (its `include_identities` parameter is
never read in the source body and is omitted). -/
def get_poll_votes (firm_id : ℕ) (s : PollState) (poll_id requester_id : ℕ) :
    Except String (List PollVoteResponse) :=
  if poll_id = s.poll.id ∧ s.poll.firm_id = firm_id then
    .ok ((votesForPoll s poll_id).map (mkVoteResponse s.poll requester_id))
  else .error "Poll not found or access denied"

/-! ## Divergence analysis (`app/services/courage/divergence.py`)

`get_divergence_view` is modelled over the same `PollState`.  The report
fields a claim touches are kept; `company_name` (a join against `deals`),
`std_deviation` (an irrational square root, only ever displayed) and the
`top_red_flags`/`top_green_flags` rankings are outside the modelled
fragment. -/

/-- The `DivergenceView` report (modelled fields). -/
structure DivergenceView where
  poll_id : ℕ
  deal_id : ℕ
  total_votes : ℕ
  average_score : ℚ
  min_score : ℕ
  max_score : ℕ
  divergence : ℕ
  score_distribution : List (ℕ × ℕ)
  has_consensus : Bool
  needs_discussion : Bool
  votes : Option (List PollVoteResponse)
deriving DecidableEq

/-- The per-vote response built inside `get_divergence_view`: present only
for a revealed poll or a lead partner, and carrying identity and notes only
when the poll is revealed. -/
def mkDivVoteResponse (revealed : Bool) (v : PollVote) : PollVoteResponse :=
  { id := v.id
    poll_id := v.poll_id
    conviction_score := v.conviction_score
    red_flags := v.red_flags
    green_flags := v.green_flags
    submitted_at := v.submitted_at
    user_id := if revealed then some v.user_id else none
    user_name := if revealed then v.user_full_name else none
    red_flag_notes := if revealed then v.red_flag_notes else none
    green_flag_notes := if revealed then v.green_flag_notes else none }

/-- `DivergenceAnalyzer.get_divergence_view`: poll lookup is scoped by
`firm_id`, an empty vote set is an error, `statistics.mean` is the exact
rational mean rounded to two decimals, and the consensus flags compare the
spread against 2 and 5. -/
def get_divergence_view (firm_id : ℕ) (s : PollState)
    (poll_id _requester_id : ℕ) (is_lead_partner : Bool) :
    Except String DivergenceView :=
  if poll_id = s.poll.id ∧ s.poll.firm_id = firm_id then
    let votes := votesForPoll s poll_id
    if votes.isEmpty then .error "No votes submitted yet"
    else
      let scores := votes.map (·.conviction_score)
      let mn := minNat scores
      let mx := maxNat scores
      let dv := mx - mn
      .ok
        { poll_id := s.poll.id
          deal_id := s.poll.deal_id
          total_votes := votes.length
          average_score := round2 ((scores.sum : ℚ) / (scores.length : ℚ))
          min_score := mn
          max_score := mx
          divergence := dv
          score_distribution := (List.range 10).map (fun i => (i + 1, scores.count (i + 1)))
          has_consensus := decide (dv ≤ 2)
          needs_discussion := decide (dv ≥ 5)
          votes :=
            if s.poll.is_revealed || is_lead_partner then
              some (votes.map (mkDivVoteResponse s.poll.is_revealed))
            else none }
  else .error "Poll not found or access denied"

/-! ## Operation traces over one poll

For the reveal-freezing claim we close the polling service under arbitrary
request sequences: each request runs with its caller's firm context, and a
raised exception rolls the transaction back, leaving the state unchanged. -/

/-- One inbound polling request. -/
inductive PollOp where
  | submit (firm_id now poll_id user_id : ℕ) (d : PollVoteCreateData)
      (vid : ℕ) (uname : Option String)
  | reveal (firm_id poll_id : ℕ)
deriving DecidableEq

/-- Run one request; an error leaves the database unchanged. -/
def applyOp (s : PollState) : PollOp → PollState
  | .submit f now pid uid d vid un =>
      match submit_vote f now s pid uid d vid un with
      | .ok s' => s'
      | .error _ => s
  | .reveal f pid =>
      match reveal_poll f s pid with
      | .ok s' => s'
      | .error _ => s

/-- Run a sequence of requests left to right. -/
def applyOps (s : PollState) (ops : List PollOp) : PollState :=
  ops.foldl applyOp s

/-! ## Vector store (`app/services/memory/vector_store.py`)

The `document_chunks` and `documents` tables become explicit row lists.
The SQL expression `dc.embedding <=> :query_vector::vector` (pgvector
cosine distance against the embedded query) is passed in as an opaque
`dist` function on the stored embedding; every property proved below
holds for an arbitrary `dist`.  `ORDER BY distance ASC` is the same
ordering as descending similarity `1 - distance`, which is how it is
written here.  The Python finally projects each selected row to a result
dict; that projection drops `firm_id` — the very field the tenant claims
track — so the search functions here return the selected joined rows
themselves. -/

/-- A `document_chunks` row. -/
structure ChunkRow where
  id : ℕ
  document_id : ℕ
  firm_id : ℕ
  content : String
  chunk_index : ℕ
  page_number : Option ℕ
  section_type : Option String
  embedding : List ℚ
deriving DecidableEq

/-- A `documents` row (fields the searches read). -/
structure DocumentRow where
  id : ℕ
  firm_id : ℕ
  original_filename : String
  deal_id : Option ℕ
  document_type : String
  extracted_company : Option String
deriving DecidableEq

/-- The tables the vector searches read. -/
structure VectorDB where
  chunks : List ChunkRow
  documents : List DocumentRow
deriving DecidableEq

/-- `FROM document_chunks dc JOIN documents d ON dc.document_id = d.id`. -/
def joinRows (db : VectorDB) : List (ChunkRow × DocumentRow) :=
  db.chunks.flatMap fun c =>
    (db.documents.filter (fun d => d.id == c.document_id)).map (fun d => (c, d))

/-- `1 - (dc.embedding <=> :query_vector::vector)`: similarity of a chunk
to the embedded query. -/
def chunkSim (dist : List ℚ → ℚ) (c : ChunkRow) : ℚ :=
  1 - dist c.embedding

/-- The WHERE clause of `VectorStore.similarity_search`: both the chunk and
the joined document must carry the caller's `firm_id`, the optional
document filters apply only when supplied, and the similarity floor is the
inclusive `>= :min_similarity`. -/
def searchFilter (firm_id : ℕ) (dist : List ℚ → ℚ) (min_similarity : ℚ)
    (document_id : Option ℕ) (document_type : Option String)
    (cd : ChunkRow × DocumentRow) : Bool :=
  cd.1.firm_id == firm_id && cd.2.firm_id == firm_id &&
    (match document_id with
     | some i => cd.1.document_id == i
     | none => true) &&
    (match document_type with
     | some t => cd.2.document_type == t
     | none => true) &&
    decide (chunkSim dist cd.1 ≥ min_similarity)

/-- The joined rows satisfying the WHERE clause of
`VectorStore.similarity_search`, before ordering and `LIMIT`. -/
def searchCandidates (db : VectorDB) (firm_id : ℕ) (dist : List ℚ → ℚ)
    (min_similarity : ℚ) (document_id : Option ℕ)
    (document_type : Option String) : List (ChunkRow × DocumentRow) :=
  (joinRows db).filter (searchFilter firm_id dist min_similarity document_id document_type)

/-- `VectorStore.similarity_search`: filter, order by distance (that is,
by descending similarity), truncate to `limit`. -/
def similarity_search (db : VectorDB) (firm_id : ℕ) (dist : List ℚ → ℚ)
    (limit : ℕ) (min_similarity : ℚ) (document_id : Option ℕ)
    (document_type : Option String) : List (ChunkRow × DocumentRow) :=
  (sortDescBy (fun cd => chunkSim dist cd.1)
      (searchCandidates db firm_id dist min_similarity document_id document_type)).take limit

/-- The six `LIKE '%...%'` alternatives of
`VectorStore.search_pass_patterns`. -/
def passLikeTokens : List String :=
  ["pass", "concern", "risk", "not invest", "decline", "red flag"]

/-- `LOWER(dc.content) LIKE '%tok%'` for any of the tokens. -/
def likeAnyOf (tokens : List String) (content : String) : Bool :=
  tokens.any (fun p => strOccursIn p (lowerStr content))

/-- The WHERE clause of `VectorStore.search_pass_patterns`: both firm
checks, `d.document_type = 'ic_memo'`, one of the six pass-language
tokens, and the hard-coded inclusive floor `>= 0.5`. -/
def passPatternFilter (firm_id : ℕ) (dist : List ℚ → ℚ)
    (cd : ChunkRow × DocumentRow) : Bool :=
  cd.1.firm_id == firm_id && cd.2.firm_id == firm_id &&
    cd.2.document_type == "ic_memo" &&
    likeAnyOf passLikeTokens cd.1.content &&
    decide (chunkSim dist cd.1 ≥ 1 / 2)

/-- The joined rows passing `search_pass_patterns`' WHERE clause. -/
def passPatternCandidates (db : VectorDB) (firm_id : ℕ)
    (dist : List ℚ → ℚ) : List (ChunkRow × DocumentRow) :=
  (joinRows db).filter (passPatternFilter firm_id dist)

/-- `VectorStore.search_pass_patterns`. -/
def search_pass_patterns (db : VectorDB) (firm_id : ℕ) (dist : List ℚ → ℚ)
    (limit : ℕ) : List (ChunkRow × DocumentRow) :=
  (sortDescBy (fun cd => chunkSim dist cd.1) (passPatternCandidates db firm_id dist)).take limit

/-! ## Ghost loss analyzer (`app/services/ghostwriter/ghost_loss_analyzer.py`) -/

/-- A `deals` row (fields `_find_similar_passed_deals` reads);
`stage = "passed"` is the value of `DealStage.PASSED`. -/
structure DealRec where
  id : ℕ
  firm_id : ℕ
  company_name : String
  sector : Option String
  stage : String
  pass_reason : Option String
  one_liner : Option String
  updated_at : ℕ
deriving DecidableEq

/-- A merged match candidate: the dicts produced by both search passes,
restricted to the fields `_deduplicate_and_rank` and the claims read. -/
structure Pattern where
  ptype : String
  company_name : String
  similarity : ℚ
  pass_reason : Option String
deriving DecidableEq

/-- Python `a or b` on an optional string column: `None` and the empty
string both fall through to `b`. -/
def pyOrStr (a : Option String) (b : String) : String :=
  match a with
  | some s => if s = "" then b else s
  | none => b

/-- The `"passed_deal"` candidate dict built in
`_find_similar_passed_deals`. -/
def mkPassedPattern (simf : DealRec → ℚ) (d : DealRec) : Pattern :=
  { ptype := "passed_deal"
    company_name := d.company_name
    similarity := simf d
    pass_reason := d.pass_reason }

/-- `GhostLossAnalyzer._find_similar_passed_deals`: fetch the firm's
`PASSED` deals that document a pass reason (sector-matched when the
current deal has a sector), newest first, capped at `limit * 2`; keep
those with embedding similarity strictly above `0.5` (the Python test is
`similarity > 0.5`); sort by similarity descending and truncate.  The
similarity of each passed deal's fingerprint to the current deal's
fingerprint is the opaque `simf`. -/
def find_similar_passed_deals (deals : List DealRec) (firm_id : ℕ)
    (current : DealRec) (simf : DealRec → ℚ) (limit : ℕ) : List Pattern :=
  let base := deals.filter fun d =>
    d.firm_id == firm_id && d.stage == "passed" && d.pass_reason.isSome &&
      (match current.sector with
       | some sec => d.sector == some sec
       | none => true)
  let fetched := (sortDescBy (fun d => (d.updated_at : ℚ)) base).take (limit * 2)
  let scored := (fetched.filter (fun d => decide (simf d > 1 / 2))).map (mkPassedPattern simf)
  (sortDescBy (fun p => p.similarity) scored).take limit

/-- The five `LIKE` alternatives of the analyzer's own pass-vector SQL
(this query lacks the `red flag` token and the `d.firm_id` double check of
`VectorStore.search_pass_patterns`). -/
def ghostLikeTokens : List String :=
  ["pass", "concern", "risk", "not invest", "decline"]

/-- The WHERE clause of the SQL inside
`GhostLossAnalyzer._search_pass_vectors`. -/
def ghostPassFilter (firm_id : ℕ) (dist : List ℚ → ℚ)
    (cd : ChunkRow × DocumentRow) : Bool :=
  cd.1.firm_id == firm_id && cd.2.document_type == "ic_memo" &&
    likeAnyOf ghostLikeTokens cd.1.content &&
    decide (chunkSim dist cd.1 ≥ 1 / 2)

/-- The rows returned by the `_search_pass_vectors` SQL query. -/
def ghostPassQuery (db : VectorDB) (firm_id : ℕ) (dist : List ℚ → ℚ)
    (limit : ℕ) : List (ChunkRow × DocumentRow) :=
  (sortDescBy (fun cd => chunkSim dist cd.1)
      ((joinRows db).filter (ghostPassFilter firm_id dist))).take limit

/-- The `"historical_memo"` candidate dict built from one fetched row;
`_extract_pass_reason` (an ordered regex heuristic with a fixed-excerpt
fallback, whose output no claim inspects) is the opaque `extractReason`. -/
def mkMemoPattern (dist : List ℚ → ℚ) (extractReason : String → String)
    (cd : ChunkRow × DocumentRow) : Pattern :=
  { ptype := "historical_memo"
    company_name := pyOrStr cd.2.extracted_company cd.2.original_filename
    similarity := chunkSim dist cd.1
    pass_reason := some (extractReason cd.1.content) }

/-- `GhostLossAnalyzer._search_pass_vectors` with its fallibility made
explicit.  `embed` is the `EmbeddingService.embed_text` call, made before
the `try` block, so its failure propagates; `dbResult` is the
`db.execute` of the SQL, made inside `try ... except`, whose failure is
logged and swallowed, the method returning the rows accumulated so far —
the empty list. -/
def search_pass_vectors (embed : Except String Unit)
    (dbResult : Except String VectorDB) (firm_id : ℕ) (dist : List ℚ → ℚ)
    (extractReason : String → String) (limit : ℕ) :
    Except String (List Pattern) :=
  match embed with
  | .error e => .error e
  | .ok _ =>
      match dbResult with
      | .error _ => .ok []
      | .ok db => .ok ((ghostPassQuery db firm_id dist limit).map (mkMemoPattern dist extractReason))

/-- `pattern.get("company_name", "").lower()`: the normalized company name
a candidate is deduplicated under; the empty string means "untitled". -/
def normName (p : Pattern) : String :=
  lowerStr p.company_name

/-- How many candidates of `l` carry the normalized name `n`. -/
def countName (n : String) (l : List Pattern) : ℕ :=
  (l.filter (fun p => normName p == n)).length

/-- The loop body of `GhostLossAnalyzer._deduplicate_and_rank`: walk the
similarity-sorted candidates keeping the first occurrence of every
non-empty lower-cased company name; candidates with an empty name are
always kept. -/
def dedupGo (seen : List String) : List Pattern → List Pattern
  | [] => []
  | p :: rest =>
      if normName p = "" then p :: dedupGo seen rest
      else if normName p ∈ seen then dedupGo seen rest
      else p :: dedupGo (normName p :: seen) rest

/-- `GhostLossAnalyzer._deduplicate_and_rank`. -/
def deduplicate_and_rank (patterns : List Pattern) : List Pattern :=
  dedupGo [] (sortDescBy (fun p => p.similarity) patterns)

/-- The merge, deduplication and truncation steps of
`GhostLossAnalyzer.find_ghost_loss_patterns`: the two candidate lists are
concatenated, deduplicated and ranked, and the result cut to `limit`. -/
def find_ghost_loss_patterns (passed vector : List Pattern) (limit : ℕ) :
    List Pattern :=
  (deduplicate_and_rank (passed ++ vector)).take limit

/-! ## Derived notions used by the theorems -/

/-- The conviction scores of the poll's own votes. -/
def pollScores (s : PollState) : List ℕ :=
  (votesForPoll s s.poll.id).map (·.conviction_score)

/-- The frozen aggregates agree with what `reveal_poll` would recompute
from the current vote set.  `reveal_poll` establishes this and every
later service request preserves it. -/
def frozenConsistent (s : PollState) : Prop :=
  pollScores s ≠ [] →
    s.poll.average_score = some ((pollScores s).sum / (pollScores s).length) ∧
    s.poll.divergence_score = some (maxNat (pollScores s) - minNat (pollScores s))

/-! ## Concrete sample rows for the evaluation theorems -/

/-- A vote row with the given id, voter and score, no flags or notes. -/
def mkSampleVote (i uid sc : ℕ) : PollVote :=
  { id := i
    poll_id := 1
    user_id := uid
    conviction_score := sc
    red_flags := none
    red_flag_notes := none
    green_flags := none
    green_flag_notes := none
    private_notes := none
    submitted_at := 0
    updated_at := 0
    user_full_name := none }

/-- An open, unrevealed poll of firm 1. -/
def pollOne : ConvictionPoll :=
  { id := 1
    deal_id := 1
    firm_id := 1
    is_active := true
    is_revealed := false
    reveal_threshold := 3
    closes_at := none
    average_score := none
    divergence_score := none }

/-- The spec's worked example: votes scoring 4, 9 and 8. -/
def state489 : PollState :=
  { poll := pollOne
    votes := [mkSampleVote 10 1 4, mkSampleVote 11 2 9, mkSampleVote 12 3 8] }

/-- The same poll with no votes submitted. -/
def emptyPollState : PollState :=
  { poll := pollOne, votes := [] }

/-- The state `reveal_poll` produces from `state489`. -/
def state489Revealed : PollState :=
  { poll :=
      { pollOne with
        is_active := false
        is_revealed := true
        average_score := some 7
        divergence_score := some 5 }
    votes := state489.votes }

/-- A vote payload carrying only a score. -/
def sampleData (sc : ℕ) : PollVoteCreateData :=
  { conviction_score := sc
    red_flags := none
    red_flag_notes := none
    green_flags := none
    green_flag_notes := none
    private_notes := none }

/-- An `ic_memo` document of firm 1. -/
def sampleDoc : DocumentRow :=
  { id := 1
    firm_id := 1
    original_filename := "memo.pdf"
    deal_id := none
    document_type := "ic_memo"
    extracted_company := some "Acme" }

/-- A chunk of firm 1 inside `sampleDoc` whose text uses pass language. -/
def sampleChunk : ChunkRow :=
  { id := 1
    document_id := 1
    firm_id := 1
    content := "we pass on this risk"
    chunk_index := 0
    page_number := none
    section_type := none
    embedding := [] }

/-- A one-chunk tenant database. -/
def sampleDb : VectorDB :=
  { chunks := [sampleChunk], documents := [sampleDoc] }

/-- A distance function placing every chunk at distance 0 (similarity 1). -/
def zeroDist : List ℚ → ℚ := fun _ => 0

/-- The deal under evaluation in the ghost-loss samples. -/
def currentDeal : DealRec :=
  { id := 5
    firm_id := 1
    company_name := "Newco"
    sector := none
    stage := "diligence"
    pass_reason := none
    one_liner := none
    updated_at := 0 }

/-- A passed deal of firm 1 with a documented pass reason. -/
def passedDealHalf : DealRec :=
  { id := 6
    firm_id := 1
    company_name := "Oldco"
    sector := none
    stage := "passed"
    pass_reason := some "team concerns"
    one_liner := none
    updated_at := 3 }

/-- The divergence view `get_divergence_view` computes from `state489`. -/
def sampleDivView : DivergenceView :=
  { poll_id := 1
    deal_id := 1
    total_votes := 3
    average_score := 7
    min_score := 4
    max_score := 9
    divergence := 5
    score_distribution :=
      [(1, 0), (2, 0), (3, 0), (4, 1), (5, 0), (6, 0), (7, 0), (8, 1), (9, 1), (10, 0)]
    has_consensus := false
    needs_discussion := true
    votes := none }

/-- A request sequence fired after a reveal: a vote submission by a new
voter followed by a second reveal call. -/
def sampleOps : List PollOp :=
  [.submit 1 7 1 4 (sampleData 10) 200 none, .reveal 1 1]

/-- A `"passed_deal"` candidate with the given name and similarity. -/
def mkSamplePattern (nm : String) (sim : ℚ) : Pattern :=
  { ptype := "passed_deal"
    company_name := nm
    similarity := sim
    pass_reason := none }

/-! # Theorems -/

/-! ## Sorting infrastructure -/

theorem perm_insertDescBy {α : Type} (f : α → ℚ) (a : α) (l : List α) :
    (insertDescBy f a l).Perm (a :: l) := by
  induction l with
  | nil => simp [insertDescBy]
  | cons b l ih =>
      simp only [insertDescBy]
      split
      · exact List.Perm.refl _
      · exact (ih.cons b).trans (List.Perm.swap a b l)

theorem perm_sortDescBy {α : Type} (f : α → ℚ) (l : List α) :
    (sortDescBy f l).Perm l := by
  induction l with
  | nil => exact List.Perm.refl _
  | cons a l ih =>
      exact (perm_insertDescBy f a (sortDescBy f l)).trans (ih.cons a)

theorem mem_sortDescBy {α : Type} {f : α → ℚ} {x : α} {l : List α} :
    x ∈ sortDescBy f l ↔ x ∈ l :=
  (perm_sortDescBy f l).mem_iff

theorem pairwise_insertDescBy {α : Type} (f : α → ℚ) (a : α) (l : List α)
    (h : l.Pairwise (fun x y => f y ≤ f x)) :
    (insertDescBy f a l).Pairwise (fun x y => f y ≤ f x) := by
  induction l with
  | nil => simp [insertDescBy]
  | cons b l ih =>
      rcases List.pairwise_cons.mp h with ⟨hb, hl⟩
      simp only [insertDescBy]
      split
      · rename_i hba
        refine List.pairwise_cons.mpr ⟨?_, h⟩
        intro y hy
        rcases List.mem_cons.mp hy with rfl | hy
        · exact le_of_lt hba
        · exact le_trans (hb y hy) (le_of_lt hba)
      · rename_i hba
        refine List.pairwise_cons.mpr ⟨?_, ih hl⟩
        intro y hy
        rcases List.mem_cons.mp (((perm_insertDescBy f a l).mem_iff).mp hy) with rfl | hy
        · exact le_of_not_lt hba
        · exact hb y hy

theorem pairwise_sortDescBy {α : Type} (f : α → ℚ) (l : List α) :
    (sortDescBy f l).Pairwise (fun x y => f y ≤ f x) := by
  induction l with
  | nil => simp [sortDescBy]
  | cons a l ih => exact pairwise_insertDescBy f a (sortDescBy f l) ih

/-! ## Minimum and maximum of a score list -/

theorem le_maxNat {x : ℕ} {l : List ℕ} (h : x ∈ l) : x ≤ maxNat l := by
  induction l with
  | nil => cases h
  | cons a t ih =>
      rcases List.mem_cons.mp h with rfl | h
      · exact le_max_left _ _
      · exact le_trans (ih h) (le_max_right _ _)

theorem maxNat_mem {l : List ℕ} (h : l ≠ []) : maxNat l ∈ l := by
  induction l with
  | nil => exact absurd rfl h
  | cons a t ih =>
      by_cases ht' : t = []
      · subst ht'
        simp [maxNat]
      · rcases le_total a (maxNat t) with hle | hle
        · have hmx : maxNat (a :: t) = maxNat t := by
            simp only [maxNat, List.foldr_cons]
            exact max_eq_right hle
          rw [hmx]
          exact List.mem_cons_of_mem a (ih ht')
        · have hmx : maxNat (a :: t) = a := by
            simp only [maxNat, List.foldr_cons]
            exact max_eq_left hle
          rw [hmx]
          exact List.mem_cons_self a t

theorem foldr_min_le_init (init : ℕ) (t : List ℕ) : t.foldr min init ≤ init := by
  induction t with
  | nil => exact le_refl _
  | cons b t ih => exact le_trans (min_le_right _ _) ih

theorem foldr_min_le_mem {x : ℕ} (init : ℕ) {t : List ℕ} (h : x ∈ t) :
    t.foldr min init ≤ x := by
  induction t with
  | nil => cases h
  | cons b t ih =>
      rcases List.mem_cons.mp h with rfl | h
      · exact min_le_left _ _
      · exact le_trans (min_le_right _ _) (ih h)

theorem foldr_min_mem (init : ℕ) (t : List ℕ) :
    t.foldr min init = init ∨ t.foldr min init ∈ t := by
  induction t with
  | nil => exact Or.inl rfl
  | cons b t ih =>
      rcases le_total b (t.foldr min init) with hb | hb
      · right
        rw [List.foldr_cons, min_eq_left hb]
        exact List.mem_cons_self b t
      · rcases ih with h | h
        · left
          rw [List.foldr_cons, min_eq_right hb, h]
        · right
          rw [List.foldr_cons, min_eq_right hb]
          exact List.mem_cons_of_mem b h

theorem minNat_le {x : ℕ} {l : List ℕ} (h : x ∈ l) : minNat l ≤ x := by
  match l, h with
  | a :: t, h =>
      rcases List.mem_cons.mp h with rfl | h
      · exact foldr_min_le_init x t
      · exact foldr_min_le_mem a h

theorem minNat_mem {l : List ℕ} (h : l ≠ []) : minNat l ∈ l := by
  match l with
  | a :: t =>
      rcases foldr_min_mem a t with h' | h'
      · rw [minNat, h']
        exact List.mem_cons_self a t
      · rw [minNat]
        exact List.mem_cons_of_mem a h'

/-! ## Claim C1: tenant isolation of the similarity searches -/

/-- Claim C1: for distinct tenants `firmA ≠ firmB`, a similarity search
executed under `firmA`'s context — `VectorStore.similarity_search` or
`VectorStore.search_pass_patterns` constructed with `firmA` — returns only
joined rows whose chunk (and document) carry `firmA`'s firm id, never
`firmB`'s, for every query distance function, limit, similarity floor and
optional filter. -/
theorem tenant_isolation_search (db : VectorDB) (firmA firmB : ℕ)
    (dist : List ℚ → ℚ) (limit : ℕ) (min_similarity : ℚ)
    (document_id : Option ℕ) (document_type : Option String)
    (hne : firmB ≠ firmA) :
    (∀ cd ∈ similarity_search db firmA dist limit min_similarity document_id document_type,
        cd.1.firm_id = firmA ∧ cd.2.firm_id = firmA ∧ cd.1.firm_id ≠ firmB) ∧
    (∀ cd ∈ search_pass_patterns db firmA dist limit,
        cd.1.firm_id = firmA ∧ cd.2.firm_id = firmA ∧ cd.1.firm_id ≠ firmB) := by
  constructor
  · intro cd hcd
    have h1 : cd ∈ searchCandidates db firmA dist min_similarity document_id document_type :=
      mem_sortDescBy.mp (List.mem_of_mem_take hcd)
    have h2 := (List.mem_filter.mp h1).2
    simp only [searchFilter, Bool.and_eq_true, beq_iff_eq] at h2
    obtain ⟨⟨⟨⟨hA, hB2⟩, -⟩, -⟩, -⟩ := h2
    exact ⟨hA, hB2, fun hB => hne (hB.symm.trans hA)⟩
  · intro cd hcd
    have h1 : cd ∈ passPatternCandidates db firmA dist :=
      mem_sortDescBy.mp (List.mem_of_mem_take hcd)
    have h2 := (List.mem_filter.mp h1).2
    simp only [passPatternFilter, Bool.and_eq_true, beq_iff_eq] at h2
    obtain ⟨⟨⟨⟨hA, hB2⟩, -⟩, -⟩, -⟩ := h2
    exact ⟨hA, hB2, fun hB => hne (hB.symm.trans hA)⟩

/-- Witness for C1 at a concrete database and pair of tenants. -/
theorem tenant_isolation_search_witness :
    (2 : ℕ) ≠ 1 ∧
    (∀ cd ∈ similarity_search sampleDb 1 zeroDist 10 (7 / 10) none none,
        cd.1.firm_id = 1 ∧ cd.2.firm_id = 1 ∧ cd.1.firm_id ≠ 2) ∧
    (∀ cd ∈ search_pass_patterns sampleDb 1 zeroDist 10,
        cd.1.firm_id = 1 ∧ cd.2.firm_id = 1 ∧ cd.1.firm_id ≠ 2) :=
  ⟨by decide,
    (tenant_isolation_search sampleDb 1 2 zeroDist 10 (7 / 10) none none (by decide)).1,
    (tenant_isolation_search sampleDb 1 2 zeroDist 10 (7 / 10) none none (by decide)).2⟩

/-! ## Claim C4: error handling of the pass-pattern vector search -/

/-- Claim C4 counterexample: a storage failure inside
`GhostLossAnalyzer._search_pass_vectors` does not propagate — the
exception is caught, logged, and the method returns the empty result list,
which the claim says cannot happen. -/
theorem search_pass_vectors_swallows_db_error :
    search_pass_vectors (.ok ()) (.error "connection reset") 1 zeroDist id 5 =
      .ok [] :=
  rfl

/-- Claim C4 as amended: an embedding-provider failure (raised before the
`try` block) propagates to the caller, but a storage-query failure is
caught and logged and the search returns the rows accumulated so far,
namely the empty list. -/
theorem search_pass_vectors_error_policy :
    (∀ (e : String) (dbR : Except String VectorDB) (firm_id : ℕ)
        (dist : List ℚ → ℚ) (er : String → String) (limit : ℕ),
        search_pass_vectors (.error e) dbR firm_id dist er limit = .error e) ∧
    (∀ (e : String) (firm_id : ℕ) (dist : List ℚ → ℚ)
        (er : String → String) (limit : ℕ),
        search_pass_vectors (.ok ()) (.error e) firm_id dist er limit = .ok []) :=
  ⟨fun _ _ _ _ _ _ => rfl, fun _ _ _ _ _ => rfl⟩

/-! ## Claim C3: the revealed flag and the frozen aggregates -/

/-- Claim C3 counterexample: revealing a poll whose vote set is empty
completes with `is_revealed = true` while both frozen aggregates are still
absent, which the claim says no reader can observe. -/
theorem reveal_empty_poll_leaves_null_aggregates :
    (reveal_poll 1 emptyPollState 1).map
        (fun s => (s.poll.is_revealed, s.poll.average_score, s.poll.divergence_score)) =
      .ok (true, none, none) :=
  rfl

/-- Claim C3 as amended: when `reveal_poll` completes on a poll whose vote
set is non-empty at reveal time, the state it persists carries
`is_revealed = true` together with both frozen aggregates; a poll revealed
with no votes keeps its aggregates absent. -/
theorem reveal_nonempty_sets_aggregates (firm_id : ℕ) (s : PollState)
    (poll_id : ℕ) (s' : PollState)
    (h : reveal_poll firm_id s poll_id = .ok s')
    (hv : votesForPoll s poll_id ≠ []) :
    s'.poll.is_revealed = true ∧ s'.poll.is_active = false ∧
      s'.poll.average_score.isSome = true ∧ s'.poll.divergence_score.isSome = true := by
  rw [reveal_poll] at h
  by_cases hc : poll_id = s.poll.id ∧ s.poll.firm_id = firm_id
  · rw [if_pos hc] at h
    have hni : ((votesForPoll s poll_id).map (·.conviction_score)).isEmpty = false := by
      cases hl : votesForPoll s poll_id with
      | nil => exact absurd hl hv
      | cons a t => simp
    simp only [hni, Bool.false_eq_true, if_false, Except.ok.injEq] at h
    subst h
    simp
  · rw [if_neg hc] at h
    cases h

/-- Witness for C3's amended theorem at the three-vote sample poll. -/
theorem reveal_nonempty_sets_aggregates_witness :
    state489Revealed.poll.is_revealed = true ∧
      state489Revealed.poll.is_active = false ∧
      state489Revealed.poll.average_score.isSome = true ∧
      state489Revealed.poll.divergence_score.isSome = true :=
  reveal_nonempty_sets_aggregates 1 state489 1 state489Revealed rfl (by decide)

/-! ## Claim C7: the two documented rounding rules -/

theorem nat_div_eq_floor (a b : ℕ) : (a / b : ℕ) = ⌊(a : ℚ) / (b : ℚ)⌋₊ := by
  rw [Nat.floor_div_nat (a : ℚ) b, Nat.floor_natCast]

/-- Claim C7: the average frozen by `reveal_poll` is the integer-truncated
(floor) mean of the current scores, while `get_divergence_view` reports
the exact rational mean rounded to two decimals, each computed
independently; on the vote multiset {4, 9, 8} the former freezes 7 and the
latter reports 7 (that is, 7.0 after two-decimal rounding). -/
theorem average_rounding_rules :
    (∀ (firm_id : ℕ) (s : PollState) (poll_id : ℕ) (s' : PollState),
        reveal_poll firm_id s poll_id = .ok s' →
        votesForPoll s poll_id ≠ [] →
        s'.poll.average_score =
          some ⌊(((((votesForPoll s poll_id).map (·.conviction_score)).sum : ℕ) : ℚ) /
                ((((votesForPoll s poll_id).map (·.conviction_score)).length : ℕ) : ℚ))⌋₊) ∧
    (reveal_poll 1 state489 1).map (fun s => s.poll.average_score) = .ok (some 7) ∧
    (get_divergence_view 1 state489 1 1 false).map (fun dv => dv.average_score) = .ok 7 := by
  refine ⟨?_, rfl, ?_⟩
  · intro firm_id s poll_id s' h hv
    rw [reveal_poll] at h
    by_cases hc : poll_id = s.poll.id ∧ s.poll.firm_id = firm_id
    · rw [if_pos hc] at h
      have hni : ((votesForPoll s poll_id).map (·.conviction_score)).isEmpty = false := by
        cases hl : votesForPoll s poll_id with
        | nil => exact absurd hl hv
        | cons a t => simp
      simp only [hni, Bool.false_eq_true, if_false, Except.ok.injEq] at h
      subst h
      simp only [Option.some.injEq]
      exact nat_div_eq_floor _ _
    · rw [if_neg hc] at h
      cases h
  · simp [get_divergence_view, votesForPoll, state489, mkSampleVote, pollOne, round2,
      roundHalfEven, minNat, maxNat, Except.map]
    norm_num

/-- Witness for C7's universally quantified part at the sample poll. -/
theorem average_rounding_rules_witness :
    state489Revealed.poll.average_score =
      some ⌊(((((votesForPoll state489 1).map (·.conviction_score)).sum : ℕ) : ℚ) /
            ((((votesForPoll state489 1).map (·.conviction_score)).length : ℕ) : ℚ))⌋₊ :=
  average_rounding_rules.1 1 state489 1 state489Revealed rfl (by decide)

/-! ## Claim C8: divergence computation and consensus classification -/

/-- Claim C8: for every non-empty vote set, the divergence view reports
`divergence = max_score - min_score` where `min_score` and `max_score` are
the least and greatest submitted conviction scores, `has_consensus` holds
exactly when the divergence is at most 2 and `needs_discussion` exactly
when it is at least 5; on the votes {4, 9, 8} it reports min 4, max 9,
divergence 5, `needs_discussion` and no consensus. -/
theorem divergence_classification :
    (∀ (firm_id : ℕ) (s : PollState) (poll_id rid : ℕ) (lead : Bool) (dv : DivergenceView),
        get_divergence_view firm_id s poll_id rid lead = .ok dv →
        dv.divergence = dv.max_score - dv.min_score ∧
        dv.min_score ∈ (votesForPoll s poll_id).map (·.conviction_score) ∧
        dv.max_score ∈ (votesForPoll s poll_id).map (·.conviction_score) ∧
        (∀ x ∈ (votesForPoll s poll_id).map (·.conviction_score),
            dv.min_score ≤ x ∧ x ≤ dv.max_score) ∧
        (dv.has_consensus = true ↔ dv.divergence ≤ 2) ∧
        (dv.needs_discussion = true ↔ 5 ≤ dv.divergence)) ∧
    (get_divergence_view 1 state489 1 1 false).map
        (fun dv => (dv.min_score, dv.max_score, dv.divergence, dv.needs_discussion,
          dv.has_consensus)) =
      .ok (4, 9, 5, true, false) := by
  constructor
  · intro firm_id s poll_id rid lead dv h
    rw [get_divergence_view] at h
    by_cases hc : poll_id = s.poll.id ∧ s.poll.firm_id = firm_id
    · rw [if_pos hc] at h
      by_cases he : (votesForPoll s poll_id).isEmpty
      · simp only [he, if_true] at h
        cases h
      · simp only [he, Bool.false_eq_true, if_false, Except.ok.injEq] at h
        subst h
        have hv : votesForPoll s poll_id ≠ [] := by
          intro hnil
          rw [hnil] at he
          exact he rfl
        have hmap : (votesForPoll s poll_id).map (·.conviction_score) ≠ [] := by
          cases hl : votesForPoll s poll_id with
          | nil => exact absurd hl hv
          | cons a t => simp
        refine ⟨rfl, minNat_mem hmap, maxNat_mem hmap, ?_, ?_, ?_⟩
        · exact fun x hx => ⟨minNat_le hx, le_maxNat hx⟩
        · simp
        · simp
    · rw [if_neg hc] at h
      cases h
  · simp [get_divergence_view, votesForPoll, state489, mkSampleVote, pollOne, round2,
      roundHalfEven, minNat, maxNat, Except.map]

/-! ## Claim C2: frozen aggregates survive every later request -/

theorem submit_vote_inactive (f now : ℕ) (s : PollState) (pid uid : ℕ)
    (d : PollVoteCreateData) (vid : ℕ) (un : Option String)
    (hact : s.poll.is_active = false) :
    ∃ e, submit_vote f now s pid uid d vid un = .error e := by
  unfold submit_vote
  by_cases hc : pid = s.poll.id ∧ s.poll.firm_id = f
  · rw [if_pos hc, hact]
    exact ⟨"Poll is no longer active", by simp⟩
  · rw [if_neg hc]
    exact ⟨"Poll not found or access denied", rfl⟩

theorem reveal_poll_of_frozen (f : ℕ) (s : PollState) (pid : ℕ)
    (hact : s.poll.is_active = false) (hrev : s.poll.is_revealed = true)
    (hcons : frozenConsistent s) :
    reveal_poll f s pid = .ok s ∨ ∃ e, reveal_poll f s pid = .error e := by
  unfold reveal_poll
  by_cases hc : pid = s.poll.id ∧ s.poll.firm_id = f
  · left
    rw [if_pos hc]
    obtain ⟨rfl, -⟩ := hc
    simp only [Except.ok.injEq]
    by_cases he : ((votesForPoll s s.poll.id).map (·.conviction_score)).isEmpty
    · rw [if_pos he]
      refine PollState.ext ?_ rfl
      exact ConvictionPoll.ext rfl rfl rfl hact.symm hrev.symm rfl rfl rfl rfl
    · rw [if_neg he]
      have hne : pollScores s ≠ [] := by
        intro hnil
        rw [pollScores] at hnil
        rw [hnil] at he
        exact he rfl
      obtain ⟨havg, hdvg⟩ := hcons hne
      refine PollState.ext ?_ rfl
      exact ConvictionPoll.ext rfl rfl rfl hact.symm hrev.symm rfl rfl havg.symm hdvg.symm
  · right
    rw [if_neg hc]
    exact ⟨"Poll not found or access denied", rfl⟩

theorem applyOp_of_frozen (s : PollState)
    (hact : s.poll.is_active = false) (hrev : s.poll.is_revealed = true)
    (hcons : frozenConsistent s) (p : PollOp) :
    applyOp s p = s := by
  cases p with
  | submit f now pid uid d vid un =>
      obtain ⟨e, he⟩ := submit_vote_inactive f now s pid uid d vid un hact
      show (match submit_vote f now s pid uid d vid un with
            | Except.ok s' => s'
            | Except.error _ => s) = s
      rw [he]
  | reveal f pid =>
      rcases reveal_poll_of_frozen f s pid hact hrev hcons with h | ⟨e, he⟩
      · show (match reveal_poll f s pid with
              | Except.ok s' => s'
              | Except.error _ => s) = s
        rw [h]
      · show (match reveal_poll f s pid with
              | Except.ok s' => s'
              | Except.error _ => s) = s
        rw [he]

theorem applyOps_of_frozen (s : PollState)
    (hact : s.poll.is_active = false) (hrev : s.poll.is_revealed = true)
    (hcons : frozenConsistent s) (ops : List PollOp) :
    applyOps s ops = s := by
  induction ops with
  | nil => rfl
  | cons p ops ih =>
      show applyOps (applyOp s p) ops = _
      rw [applyOp_of_frozen s hact hrev hcons p, ih]

theorem reveal_poll_ok_frozen (firm_id : ℕ) (s : PollState) (poll_id : ℕ)
    (s₁ : PollState) (h : reveal_poll firm_id s poll_id = .ok s₁) :
    s₁.poll.is_active = false ∧ s₁.poll.is_revealed = true ∧ frozenConsistent s₁ := by
  rw [reveal_poll] at h
  by_cases hc : poll_id = s.poll.id ∧ s.poll.firm_id = firm_id
  · rw [if_pos hc] at h
    obtain ⟨rfl, -⟩ := hc
    by_cases he : ((votesForPoll s s.poll.id).map (·.conviction_score)).isEmpty
    · simp only [he, if_true, Except.ok.injEq] at h
      subst h
      refine ⟨rfl, rfl, ?_⟩
      intro hne
      exact absurd (List.isEmpty_iff.mp he) hne
    · simp only [he, Bool.false_eq_true, if_false, Except.ok.injEq] at h
      subst h
      exact ⟨rfl, rfl, fun _ => ⟨rfl, rfl⟩⟩
  · rw [if_neg hc] at h
    cases h

/-- Claim C2: once `reveal_poll` has succeeded on a poll, no later
sequence of service requests — vote submissions (which the now-inactive
poll rejects) or repeated reveal calls (which recompute over the unchanged
vote set) — changes the frozen `average_score` or `divergence_score`; in
particular a second `reveal_poll` call returns them unchanged. -/
theorem reveal_aggregates_frozen (firm_id : ℕ) (s : PollState) (poll_id : ℕ)
    (s₁ : PollState) (h : reveal_poll firm_id s poll_id = .ok s₁)
    (ops : List PollOp) :
    (applyOps s₁ ops).poll.average_score = s₁.poll.average_score ∧
    (applyOps s₁ ops).poll.divergence_score = s₁.poll.divergence_score ∧
    ∀ s₂, reveal_poll firm_id (applyOps s₁ ops) poll_id = .ok s₂ →
      s₂.poll.average_score = s₁.poll.average_score ∧
      s₂.poll.divergence_score = s₁.poll.divergence_score := by
  obtain ⟨hact, hrev, hcons⟩ := reveal_poll_ok_frozen firm_id s poll_id s₁ h
  have hfix : applyOps s₁ ops = s₁ := applyOps_of_frozen s₁ hact hrev hcons ops
  rw [hfix]
  refine ⟨rfl, rfl, ?_⟩
  intro s₂ h₂
  rcases reveal_poll_of_frozen firm_id s₁ poll_id hact hrev hcons with hok | ⟨e, herr⟩
  · rw [hok] at h₂
    cases h₂
    exact ⟨rfl, rfl⟩
  · rw [herr] at h₂
    cases h₂

/-- Witness for C2: the revealed sample poll followed by a late submission
attempt and a second reveal. -/
theorem reveal_aggregates_frozen_witness :
    (applyOps state489Revealed sampleOps).poll.average_score =
        state489Revealed.poll.average_score ∧
      (applyOps state489Revealed sampleOps).poll.divergence_score =
        state489Revealed.poll.divergence_score ∧
      ∀ s₂, reveal_poll 1 (applyOps state489Revealed sampleOps) 1 = .ok s₂ →
        s₂.poll.average_score = state489Revealed.poll.average_score ∧
        s₂.poll.divergence_score = state489Revealed.poll.divergence_score :=
  reveal_aggregates_frozen 1 state489 1 state489Revealed rfl sampleOps

/-! ## Claim C5: blind-vote visibility -/

/-- Claim C5: a vote's identity (`user_id`, `user_name`) and free-text
notes appear in a returned response only if the poll is revealed or the
requester authored that vote; and before reveal a non-author's response
for a vote does not depend on which voter cast it — two votes equal in
their always-visible fields produce identical responses however their
voter identity and notes differ.  The same holds for the per-vote detail
of the divergence view, where identity is tied to reveal alone. -/
theorem vote_visibility :
    (∀ (firm_id : ℕ) (s : PollState) (poll_id requester_id : ℕ)
        (rs : List PollVoteResponse),
        get_poll_votes firm_id s poll_id requester_id = .ok rs →
        s.poll.is_revealed = false →
        ∀ r ∈ rs, r.user_id = some requester_id ∨
          (r.user_id = none ∧ r.user_name = none ∧
            r.red_flag_notes = none ∧ r.green_flag_notes = none)) ∧
    (∀ (poll : ConvictionPoll) (requester_id : ℕ) (v₁ v₂ : PollVote),
        poll.is_revealed = false →
        v₁.user_id ≠ requester_id → v₂.user_id ≠ requester_id →
        v₁.id = v₂.id → v₁.poll_id = v₂.poll_id →
        v₁.conviction_score = v₂.conviction_score →
        v₁.red_flags = v₂.red_flags → v₁.green_flags = v₂.green_flags →
        v₁.submitted_at = v₂.submitted_at →
        mkVoteResponse poll requester_id v₁ = mkVoteResponse poll requester_id v₂) ∧
    (∀ (firm_id : ℕ) (s : PollState) (poll_id rid : ℕ) (lead : Bool)
        (dv : DivergenceView) (rs : List PollVoteResponse),
        get_divergence_view firm_id s poll_id rid lead = .ok dv →
        s.poll.is_revealed = false →
        dv.votes = some rs →
        ∀ r ∈ rs, r.user_id = none ∧ r.user_name = none ∧
          r.red_flag_notes = none ∧ r.green_flag_notes = none) := by
  refine ⟨?_, ?_, ?_⟩
  · intro firm_id s poll_id requester_id rs h hrev r hr
    rw [get_poll_votes] at h
    by_cases hc : poll_id = s.poll.id ∧ s.poll.firm_id = firm_id
    · rw [if_pos hc] at h
      cases h
      obtain ⟨v, hv, rfl⟩ := List.mem_map.mp hr
      rw [mkVoteResponse]
      by_cases hu : v.user_id = requester_id
      · rw [if_pos (Or.inr hu)]
        exact Or.inl (congrArg some hu)
      · rw [if_neg]
        · exact Or.inr ⟨rfl, rfl, rfl, rfl⟩
        · intro hor
          rcases hor with hb | hu'
          · rw [hrev] at hb
            cases hb
          · exact hu hu'
    · rw [if_neg hc] at h
      cases h
  · intro poll requester_id v₁ v₂ hrev h1 h2 hid hpid hscore hrf hgf hsub
    rw [mkVoteResponse, mkVoteResponse, if_neg, if_neg]
    · rw [hid, hpid, hscore, hrf, hgf, hsub]
    · intro hor
      rcases hor with hb | hu'
      · rw [hrev] at hb
        cases hb
      · exact h2 hu'
    · intro hor
      rcases hor with hb | hu'
      · rw [hrev] at hb
        cases hb
      · exact h1 hu'
  · intro firm_id s poll_id rid lead dv rs h hrev hsome r hr
    rw [get_divergence_view] at h
    by_cases hc : poll_id = s.poll.id ∧ s.poll.firm_id = firm_id
    · rw [if_pos hc] at h
      by_cases he : (votesForPoll s poll_id).isEmpty
      · rw [if_pos he] at h
        cases h
      · rw [if_neg he] at h
        cases h
        simp only [hrev, Bool.false_or] at hsome
        cases lead with
        | false => cases hsome
        | true =>
            simp only [if_true] at hsome
            cases hsome
            obtain ⟨v, hv, rfl⟩ := List.mem_map.mp hr
            simp [mkDivVoteResponse, hrev]
    · rw [if_neg hc] at h
      cases h

/-- Witness for C5 at a concrete unrevealed two-voter poll. -/
theorem vote_visibility_witness :
    (∀ r ∈ [mkVoteResponse pollOne 1 (mkSampleVote 10 1 4),
        mkVoteResponse pollOne 1 (mkSampleVote 11 2 9),
        mkVoteResponse pollOne 1 (mkSampleVote 12 3 8)],
        r.user_id = some 1 ∨
          (r.user_id = none ∧ r.user_name = none ∧
            r.red_flag_notes = none ∧ r.green_flag_notes = none)) ∧
    mkVoteResponse pollOne 1 (mkSampleVote 11 2 9) =
      mkVoteResponse pollOne 1
        { mkSampleVote 11 3 9 with user_full_name := some "Dana", private_notes := some "hidden" } := by
  constructor
  · exact vote_visibility.1 1 state489 1 1 _ rfl rfl
  · exact vote_visibility.2.1 pollOne 1 _ _ rfl (by decide) (by decide) rfl rfl rfl rfl rfl rfl

/-! ## Claim C6: vote submission is an upsert on `(poll_id, voter_id)` -/

theorem map_id_of_mem {α : Type} {f : α → α} {l : List α}
    (h : ∀ x ∈ l, f x = x) : l.map f = l := by
  induction l with
  | nil => rfl
  | cons a t ih =>
      rw [List.map_cons, h a (List.mem_cons_self a t),
        ih (fun x hx => h x (List.mem_cons_of_mem a hx))]

/-- Claim C6: on an open poll with no prior vote under `(poll_id, user_id)`,
submitting creates exactly one row under that key; submitting again with a
second payload leaves exactly one row under the key — the original row,
carrying the latest score, flags and notes, a refreshed `updated_at`, its
original `submitted_at` and id — and the vote table never gains a second
row for the key. -/
theorem submit_vote_upsert (firm_id now₁ now₂ : ℕ) (s : PollState)
    (poll_id user_id : ℕ) (d₁ d₂ : PollVoteCreateData) (vid₁ vid₂ : ℕ)
    (un₁ un₂ : Option String)
    (hpid : poll_id = s.poll.id) (hfirm : s.poll.firm_id = firm_id)
    (hactive : s.poll.is_active = true)
    (hclose₁ : pastClose s.poll.closes_at now₁ = false)
    (hclose₂ : pastClose s.poll.closes_at now₂ = false)
    (hnone : s.votes.filter (voteKeyMatches poll_id user_id) = []) :
    ∃ s₁ s₂,
      submit_vote firm_id now₁ s poll_id user_id d₁ vid₁ un₁ = .ok s₁ ∧
      s₁.votes.filter (voteKeyMatches poll_id user_id) =
        [mkNewVote poll_id user_id vid₁ now₁ d₁ un₁] ∧
      s₁.votes.length = s.votes.length + 1 ∧
      submit_vote firm_id now₂ s₁ poll_id user_id d₂ vid₂ un₂ = .ok s₂ ∧
      s₂.votes.filter (voteKeyMatches poll_id user_id) =
        [updateVote d₂ now₂ (mkNewVote poll_id user_id vid₁ now₁ d₁ un₁)] ∧
      s₂.votes.length = s.votes.length + 1 := by
  have hkeynv : voteKeyMatches poll_id user_id (mkNewVote poll_id user_id vid₁ now₁ d₁ un₁) = true := by
    simp [voteKeyMatches, mkNewVote]
  have hfilter1 :
      (s.votes ++ [mkNewVote poll_id user_id vid₁ now₁ d₁ un₁]).filter
          (voteKeyMatches poll_id user_id) =
        [mkNewVote poll_id user_id vid₁ now₁ d₁ un₁] := by
    rw [List.filter_append, hnone, List.nil_append, List.filter_cons, hkeynv]
    simp
  have hkeyup :
      voteKeyMatches poll_id user_id
          (updateVote d₂ now₂ (mkNewVote poll_id user_id vid₁ now₁ d₁ un₁)) = true := by
    simp [voteKeyMatches, updateVote, mkNewVote]
  have hmapid :
      s.votes.map (fun v =>
          if voteKeyMatches poll_id user_id v then updateVote d₂ now₂ v else v) = s.votes := by
    refine map_id_of_mem ?_
    intro x hx
    have hx' : voteKeyMatches poll_id user_id x = false := by
      by_contra hxx
      have hmem : x ∈ s.votes.filter (voteKeyMatches poll_id user_id) :=
        List.mem_filter.mpr ⟨hx, by revert hxx; cases voteKeyMatches poll_id user_id x <;> simp⟩
      rw [hnone] at hmem
      cases hmem
    simp only [hx', Bool.false_eq_true, if_false]
  have hmap :
      (s.votes ++ [mkNewVote poll_id user_id vid₁ now₁ d₁ un₁]).map (fun v =>
          if voteKeyMatches poll_id user_id v then updateVote d₂ now₂ v else v) =
        s.votes ++ [updateVote d₂ now₂ (mkNewVote poll_id user_id vid₁ now₁ d₁ un₁)] := by
    rw [List.map_append, hmapid, List.map_cons, List.map_nil, hkeynv]
    simp
  refine ⟨⟨s.poll, s.votes ++ [mkNewVote poll_id user_id vid₁ now₁ d₁ un₁]⟩,
    ⟨s.poll, s.votes ++ [updateVote d₂ now₂ (mkNewVote poll_id user_id vid₁ now₁ d₁ un₁)]⟩,
    ?_, hfilter1, by simp, ?_, ?_, by simp⟩
  · unfold submit_vote
    rw [if_pos ⟨hpid, hfirm⟩, hactive, hclose₁, hnone]
    simp
  · unfold submit_vote
    rw [if_pos ⟨hpid, hfirm⟩, hactive, hclose₂, hfilter1]
    simp only [if_true]
    rw [hmap]
    simp
  · rw [List.filter_append, hnone, List.nil_append, List.filter_cons, hkeyup]
    simp

/-- Witness for C6: two submissions by voter 2 on the sample open poll. -/
theorem submit_vote_upsert_witness :
    ∃ s₁ s₂,
      submit_vote 1 5 emptyPollState 1 2 (sampleData 4) 100 none = .ok s₁ ∧
      s₁.votes.filter (voteKeyMatches 1 2) = [mkNewVote 1 2 100 5 (sampleData 4) none] ∧
      s₁.votes.length = emptyPollState.votes.length + 1 ∧
      submit_vote 1 6 s₁ 1 2 (sampleData 9) 101 none = .ok s₂ ∧
      s₂.votes.filter (voteKeyMatches 1 2) =
        [updateVote (sampleData 9) 6 (mkNewVote 1 2 100 5 (sampleData 4) none)] ∧
      s₂.votes.length = emptyPollState.votes.length + 1 :=
  submit_vote_upsert 1 5 6 emptyPollState 1 2 (sampleData 4) (sampleData 9) 100 101
    none none rfl rfl rfl rfl rfl rfl

/-- Witness for C8's universally quantified part at the sample poll. -/
theorem divergence_classification_witness :
    sampleDivView.divergence = sampleDivView.max_score - sampleDivView.min_score ∧
      sampleDivView.min_score ∈ (votesForPoll state489 1).map (·.conviction_score) ∧
      sampleDivView.max_score ∈ (votesForPoll state489 1).map (·.conviction_score) ∧
      (∀ x ∈ (votesForPoll state489 1).map (·.conviction_score),
          sampleDivView.min_score ≤ x ∧ x ≤ sampleDivView.max_score) ∧
      (sampleDivView.has_consensus = true ↔ sampleDivView.divergence ≤ 2) ∧
      (sampleDivView.needs_discussion = true ↔ 5 ≤ sampleDivView.divergence) :=
  divergence_classification.1 1 state489 1 1 false sampleDivView (by
    simp [get_divergence_view, votesForPoll, state489, mkSampleVote, pollOne, round2,
      roundHalfEven, minNat, maxNat, sampleDivView]
    norm_num
    decide)

/-! ## Claim C9: deduplication keeps the best-scoring candidate -/

theorem countName_cons (n : String) (p : Pattern) (l : List Pattern) :
    countName n (p :: l) = (if normName p = n then 1 else 0) + countName n l := by
  rw [countName, List.filter_cons]
  by_cases h : normName p = n
  · simp [h, countName, Nat.add_comm]
  · simp [h, countName]

theorem countName_perm {l l' : List Pattern} (h : l.Perm l') (n : String) :
    countName n l = countName n l' := by
  rw [countName, countName, ← List.countP_eq_length_filter, ← List.countP_eq_length_filter]
  exact h.countP_eq _

theorem dedupGo_sublist (seen : List String) (l : List Pattern) :
    (dedupGo seen l).Sublist l := by
  induction l generalizing seen with
  | nil => exact List.Sublist.refl _
  | cons p rest ih =>
      rw [dedupGo]
      by_cases h0 : normName p = ""
      · rw [if_pos h0]
        exact (ih seen).cons₂ p
      · rw [if_neg h0]
        by_cases hs : normName p ∈ seen
        · rw [if_pos hs]
          exact (ih seen).cons p
        · rw [if_neg hs]
          exact (ih _).cons₂ p

theorem dedupGo_mem_not_seen {seen : List String} {l : List Pattern} {q : Pattern}
    (hq : q ∈ dedupGo seen l) : normName q = "" ∨ normName q ∉ seen := by
  induction l generalizing seen with
  | nil =>
      rw [dedupGo] at hq
      cases hq
  | cons p rest ih =>
      rw [dedupGo] at hq
      by_cases h0 : normName p = ""
      · rw [if_pos h0] at hq
        rcases List.mem_cons.mp hq with rfl | hq
        · exact Or.inl h0
        · exact ih hq
      · rw [if_neg h0] at hq
        by_cases hs : normName p ∈ seen
        · rw [if_pos hs] at hq
          exact ih hq
        · rw [if_neg hs] at hq
          rcases List.mem_cons.mp hq with rfl | hq
          · exact Or.inr hs
          · rcases ih hq with h | h
            · exact Or.inl h
            · exact Or.inr (fun hmem => h (List.mem_cons_of_mem _ hmem))

theorem countName_dedupGo {n : String} (hn : n ≠ "") (seen : List String)
    (l : List Pattern) :
    countName n (dedupGo seen l) = if n ∈ seen then 0 else min 1 (countName n l) := by
  induction l generalizing seen with
  | nil =>
      rw [dedupGo]
      by_cases hs : n ∈ seen <;> simp [hs, countName]
  | cons p rest ih =>
      rw [dedupGo]
      by_cases h0 : normName p = ""
      · rw [if_pos h0]
        have hpn : ¬ normName p = n := fun hh => hn (hh ▸ h0)
        rw [countName_cons, if_neg hpn, countName_cons, if_neg hpn]
        simpa using ih seen
      · rw [if_neg h0]
        by_cases hs : normName p ∈ seen
        · rw [if_pos hs, countName_cons, ih seen]
          by_cases hpn : normName p = n
          · rw [if_pos hpn, if_pos (hpn ▸ hs)]
            simp [hpn ▸ hs]
          · rw [if_neg hpn]
            simp
        · rw [if_neg hs, countName_cons, countName_cons, ih (normName p :: seen)]
          by_cases hpn : normName p = n
          · subst hpn
            rw [if_pos (List.mem_cons_self _ _)]
            by_cases hns : normName p ∈ seen
            · exact absurd hns hs
            · rw [if_neg hns]
              simp
          · have hmem : (n ∈ normName p :: seen) ↔ (n ∈ seen) := by
              constructor
              · intro hh
                rcases List.mem_cons.mp hh with rfl | hh
                · exact absurd rfl hpn
                · exact hh
              · exact List.mem_cons_of_mem _
            rw [if_neg hpn]
            by_cases hns : n ∈ seen
            · rw [if_pos (hmem.mpr hns), if_pos hns]
            · rw [if_neg (fun hh => hns (hmem.mp hh)), if_neg hns]
              simp

theorem countName_untitled_dedupGo (seen : List String) (l : List Pattern) :
    countName "" (dedupGo seen l) = countName "" l := by
  induction l generalizing seen with
  | nil => rw [dedupGo]
  | cons p rest ih =>
      rw [dedupGo]
      by_cases h0 : normName p = ""
      · rw [if_pos h0, countName_cons, countName_cons, ih seen]
      · rw [if_neg h0]
        have hpn : ¬ normName p = "" := h0
        by_cases hs : normName p ∈ seen
        · rw [if_pos hs, countName_cons, if_neg hpn, ih seen]
          simp
        · rw [if_neg hs, countName_cons, countName_cons, if_neg hpn, ih (normName p :: seen)]

theorem dedupGo_similarity_max (l : List Pattern)
    (hsorted : l.Pairwise (fun x y => y.similarity ≤ x.similarity)) :
    ∀ (seen : List String) (q : Pattern), q ∈ dedupGo seen l →
      ∀ p ∈ l, normName p = normName q → normName q ≠ "" →
        p.similarity ≤ q.similarity := by
  induction l with
  | nil =>
      intro seen q hq
      rw [dedupGo] at hq
      cases hq
  | cons a rest ih =>
      intro seen q hq p hp hname hne
      obtain ⟨ha, hrest⟩ := List.pairwise_cons.mp hsorted
      rw [dedupGo] at hq
      by_cases h0 : normName a = ""
      · rw [if_pos h0] at hq
        rcases List.mem_cons.mp hq with rfl | hq
        · exact absurd h0 hne
        · rcases List.mem_cons.mp hp with rfl | hp
          · exact absurd (hname.symm.trans h0) hne
          · exact ih hrest seen q hq p hp hname hne
      · rw [if_neg h0] at hq
        by_cases hs : normName a ∈ seen
        · rw [if_pos hs] at hq
          rcases List.mem_cons.mp hp with rfl | hp
          · rcases dedupGo_mem_not_seen hq with hq0 | hqs
            · exact absurd hq0 hne
            · exact absurd (hname ▸ hs) hqs
          · exact ih hrest seen q hq p hp hname hne
        · rw [if_neg hs] at hq
          rcases List.mem_cons.mp hq with rfl | hq
          · rcases List.mem_cons.mp hp with rfl | hp
            · exact le_refl _
            · exact ha p hp
          · rcases List.mem_cons.mp hp with rfl | hp
            · rcases dedupGo_mem_not_seen hq with hq0 | hqs
              · exact absurd hq0 hne
              · have hmem : normName q ∈ normName p :: seen := by
                  rw [← hname]
                  exact List.mem_cons_self _ _
                exact absurd hmem hqs
            · exact ih hrest _ q hq p hp hname hne

/-- Claim C9: after the merge of the two candidate lists, deduplication
keeps exactly one candidate per non-empty case-insensitively normalized
company name — one of maximal similarity in its group — never merges
untitled candidates, and the final list is sorted by descending similarity
and truncated to `limit`. -/
theorem dedup_keeps_best (passed vector : List Pattern) (limit : ℕ) (n : String) :
    (n ≠ "" →
      countName n (deduplicate_and_rank (passed ++ vector)) =
        min 1 (countName n (passed ++ vector))) ∧
    (∀ q ∈ deduplicate_and_rank (passed ++ vector),
        ∀ p ∈ passed ++ vector, normName p = normName q → normName q ≠ "" →
          p.similarity ≤ q.similarity) ∧
    countName "" (deduplicate_and_rank (passed ++ vector)) =
      countName "" (passed ++ vector) ∧
    (∀ q ∈ deduplicate_and_rank (passed ++ vector), q ∈ passed ++ vector) ∧
    (find_ghost_loss_patterns passed vector limit).Pairwise
      (fun x y => y.similarity ≤ x.similarity) ∧
    (find_ghost_loss_patterns passed vector limit).length ≤ limit := by
  refine ⟨?_, ?_, ?_, ?_, ?_, ?_⟩
  · intro hn
    rw [deduplicate_and_rank, countName_dedupGo hn [],
      countName_perm (perm_sortDescBy _ _) n]
    simp
  · intro q hq p hp hname hne
    exact dedupGo_similarity_max _ (pairwise_sortDescBy _ _) [] q hq p
      (mem_sortDescBy.mpr hp) hname hne
  · rw [deduplicate_and_rank, countName_untitled_dedupGo [],
      countName_perm (perm_sortDescBy _ _) ""]
  · intro q hq
    exact mem_sortDescBy.mp ((dedupGo_sublist [] _).mem hq)
  · exact ((pairwise_sortDescBy _ _).sublist (dedupGo_sublist [] _)).sublist
      (List.take_sublist _ _)
  · exact List.length_take_le _ _

/-- Witness for C9 on the spec's 0.6/0.9 duplicate example. -/
theorem dedup_keeps_best_witness :
    countName "acme"
        (deduplicate_and_rank
          ([mkSamplePattern "Acme" (3 / 5)] ++ [mkSamplePattern "acme" (9 / 10)])) =
      min 1 (countName "acme"
        ([mkSamplePattern "Acme" (3 / 5)] ++ [mkSamplePattern "acme" (9 / 10)])) :=
  (dedup_keeps_best [mkSamplePattern "Acme" (3 / 5)]
      [mkSamplePattern "acme" (9 / 10)] 10 "acme").1 (by decide)

/-! ## Claim C10: similarity floors -/

/-- Claim C10 counterexample: a passed deal of the right firm, stage and
documented pass reason whose embedding similarity to the current deal is
exactly 0.5 is discarded by `_find_similar_passed_deals`, whose Python
test is the strict `similarity > 0.5` — the claim says a candidate exactly
at the cutoff is retained in both passes. -/
theorem passed_deal_at_cutoff_discarded :
    find_similar_passed_deals [passedDealHalf] 1 currentDeal (fun _ => 1 / 2) 10 = [] := by
  norm_num [find_similar_passed_deals, sortDescBy, insertDescBy, passedDealHalf,
    currentDeal, mkPassedPattern]

/-- Claim C10 as amended: the similarity floors of the index searches are
inclusive — `VectorStore.similarity_search` keeps a candidate exactly at
`min_similarity` (`>=` in the SQL) and drops only candidates strictly
below it, likewise `search_pass_patterns` at its hard-coded 0.5 — but the
structured-outcome pass `_find_similar_passed_deals` retains only
candidates strictly above 0.5, discarding one exactly at the cutoff. -/
theorem similarity_threshold_semantics (db : VectorDB) (firm_id : ℕ)
    (dist : List ℚ → ℚ) (limit : ℕ) (min_similarity : ℚ)
    (document_id : Option ℕ) (document_type : Option String)
    (deals : List DealRec) (current : DealRec) (simf : DealRec → ℚ) :
    (∀ cd ∈ searchCandidates db firm_id dist min_similarity document_id document_type,
        chunkSim dist cd.1 ≥ min_similarity) ∧
    (∀ cd ∈ joinRows db, cd.1.firm_id = firm_id → cd.2.firm_id = firm_id →
        (document_id = none ∨ document_id = some cd.1.document_id) →
        (document_type = none ∨ document_type = some cd.2.document_type) →
        chunkSim dist cd.1 = min_similarity →
        cd ∈ searchCandidates db firm_id dist min_similarity document_id document_type) ∧
    (∀ cd ∈ similarity_search db firm_id dist limit min_similarity document_id document_type,
        cd ∈ searchCandidates db firm_id dist min_similarity document_id document_type) ∧
    ((searchCandidates db firm_id dist min_similarity document_id document_type).length
        ≤ limit →
      ∀ cd,
        cd ∈ similarity_search db firm_id dist limit min_similarity document_id
          document_type ↔
        cd ∈ searchCandidates db firm_id dist min_similarity document_id document_type) ∧
    (∀ cd ∈ passPatternCandidates db firm_id dist, chunkSim dist cd.1 ≥ 1 / 2) ∧
    (∀ cd ∈ joinRows db, cd.1.firm_id = firm_id → cd.2.firm_id = firm_id →
        cd.2.document_type = "ic_memo" → likeAnyOf passLikeTokens cd.1.content = true →
        chunkSim dist cd.1 = 1 / 2 →
        cd ∈ passPatternCandidates db firm_id dist) ∧
    (∀ p ∈ find_similar_passed_deals deals firm_id current simf limit,
        p.similarity > 1 / 2) := by
  refine ⟨?_, ?_, ?_, ?_, ?_, ?_, ?_⟩
  · intro cd hcd
    have h2 := (List.mem_filter.mp hcd).2
    simp only [searchFilter, Bool.and_eq_true, decide_eq_true_eq] at h2
    exact h2.2
  · intro cd hjoin h1 h2 hdoc htype hsim
    refine List.mem_filter.mpr ⟨hjoin, ?_⟩
    simp only [searchFilter, Bool.and_eq_true, beq_iff_eq, decide_eq_true_eq]
    refine ⟨⟨⟨⟨h1, h2⟩, ?_⟩, ?_⟩, le_of_eq hsim.symm⟩
    · rcases hdoc with rfl | hd
      · rfl
      · rw [hd]
        simp
    · rcases htype with rfl | ht
      · rfl
      · rw [ht]
        simp
  · intro cd hcd
    exact mem_sortDescBy.mp (List.mem_of_mem_take hcd)
  · intro hlen cd
    rw [similarity_search, List.take_of_length_le, mem_sortDescBy]
    rw [(perm_sortDescBy _ _).length_eq]
    exact hlen
  · intro cd hcd
    have h2 := (List.mem_filter.mp hcd).2
    simp only [passPatternFilter, Bool.and_eq_true, decide_eq_true_eq] at h2
    exact h2.2
  · intro cd hjoin h1 h2 htype hlike hsim
    refine List.mem_filter.mpr ⟨hjoin, ?_⟩
    simp only [passPatternFilter, Bool.and_eq_true, beq_iff_eq, decide_eq_true_eq]
    exact ⟨⟨⟨⟨h1, h2⟩, htype⟩, hlike⟩, le_of_eq hsim.symm⟩
  · intro p hp
    simp only [find_similar_passed_deals] at hp
    have hp1 := mem_sortDescBy.mp (List.mem_of_mem_take hp)
    obtain ⟨d, hd, rfl⟩ := List.mem_map.mp hp1
    have hpred := (List.mem_filter.mp hd).2
    simp only [decide_eq_true_eq] at hpred
    exact hpred

/-- Witness for C10's amended theorem: under a distance function placing
the sample chunk at similarity exactly 0.5, the chunk is retained as a
candidate of both index searches at their inclusive floors. -/
theorem similarity_threshold_semantics_witness :
    (sampleChunk, sampleDoc) ∈
        searchCandidates sampleDb 1 (fun _ => 1 / 2) (1 / 2) none none ∧
      (sampleChunk, sampleDoc) ∈ passPatternCandidates sampleDb 1 (fun _ => 1 / 2) := by
  constructor
  · refine (similarity_threshold_semantics sampleDb 1 (fun _ => 1 / 2) 10 (1 / 2) none
        none [] currentDeal (fun _ => 0)).2.1 (sampleChunk, sampleDoc) (by decide) rfl rfl
      (Or.inl rfl) (Or.inl rfl) ?_
    norm_num [chunkSim]
  · refine (similarity_threshold_semantics sampleDb 1 (fun _ => 1 / 2) 10 (1 / 2) none
        none [] currentDeal (fun _ => 0)).2.2.2.2.2.1 (sampleChunk, sampleDoc) (by decide)
      rfl rfl rfl (by decide) ?_
    norm_num [chunkSim]

end Waspos
